import Mathlib

/-!
Shallow embedding of the signal strategy engine in src/algobot/strategies.py.

Python floats are modelled as rationals.  Python runtime errors that the
engine can raise (ZeroDivisionError; ValueError from max or min on an empty
sequence; IndexError from indexing an empty list) are modelled by an explicit
error type threaded through the return value: a call either returns a state
together with Except.ok of an optional trend, or a state together with the
error raised, the state reflecting exactly the mutations performed before the
raise.  The trend constants BULLISH and BEARISH, which the engine consumes as
opaque constants from an external module, are modelled as an inductive type.
The parent object and the raw bar data are opaque type parameters; the
indicator provider methods parent.get_rsi, parent.dataView.get_rsi and
parent.get_moving_average are external collaborators and are passed in as
function parameters.  A rolling-state dictionary with a fixed set of possible
keys is modelled as a structure whose list fields start empty: creating a
missing key with a one-element list and inserting into an existing list both
become a single list operation, which is observationally equivalent because
the code never distinguishes an absent key from a present one except to
choose between those two operations.
-/

/-- Trend classification constants, consumed by the engine as opaque constants. -/
inductive Trend where
  | BULLISH : Trend
  | BEARISH : Trend
deriving DecidableEq

/-- Python runtime errors the engine can raise. -/
inductive PyErr where
  | zeroDiv : PyErr
  | valueError : PyErr
  | indexError : PyErr
deriving DecidableEq

/-- Python max over a list; the engine only applies it to nonempty lists,
where it equals a fold of max over the elements. -/
def pymax (l : List ℚ) : ℚ := l.tail.foldl max (l.headD 0)

/-- Python min over a list; the engine only applies it to nonempty lists. -/
def pymin (l : List ℚ) : ℚ := l.tail.foldl min (l.headD 0)

/-- Model of round(x, p): scale, round half to even, unscale.  Python rounds
binary floats half to even; this rational version is used only for the
display-only values entry of the rolling-state mapping, which no classification
decision reads. -/
def pyround (p : ℤ) (x : ℚ) : ℚ :=
  let y := x * 10 ^ p
  let f := ⌊y⌋
  let r := y - f
  let n : ℤ := if r < 1 / 2 then f else if 1 / 2 < r then f + 1 else if f % 2 = 0 then f else f + 1
  (n : ℚ) / 10 ^ p

/-- Rounded scalars stored under the values key by StoicStrategy.get_trend. -/
structure StoicValues where
  marcus : ℚ
  stoic : ℚ
  seneca : ℚ
  zeno : ℚ
  gaius : ℚ
  philo : ℚ
  hadot : ℚ
deriving DecidableEq

/-- Rolling-state mapping of a StoicStrategy: five newest-first histories and
the optional values entry. -/
structure StoicDict where
  seneca : List ℚ
  zeno : List ℚ
  gaius : List ℚ
  philo : List ℚ
  hadot : List ℚ
  values : Option StoicValues
deriving DecidableEq

/-- The empty rolling-state mapping of a StoicStrategy. -/
def emptyStoicDict : StoicDict := ⟨[], [], [], [], [], none⟩

/-- A StoicStrategy instance: the base-class fields (name, parent, precision,
trend, strategyDict) flattened together with the three window parameters. -/
structure StoicStrategy (Parent : Type) where
  name : String
  parent : Parent
  precision : ℤ
  trend : Option Trend
  strategyDict : StoicDict
  stoicInput1 : ℕ
  stoicInput2 : ℕ
  stoicInput3 : ℕ

/-- Constructor of StoicStrategy: name Stoic, trend None, empty dictionary. -/
def mkStoicStrategy {Parent : Type} (parent : Parent) (input1 input2 input3 : ℕ)
    (precision : ℤ) : StoicStrategy Parent :=
  ⟨"Stoic", parent, precision, none, emptyStoicDict, input1, input2, input3⟩

/-- Base-class reset_strategy_dictionary, specialised to StoicStrategy:
replaces the rolling-state mapping by the empty one. -/
def StoicStrategy.reset_strategy_dictionary {Parent : Type} (s : StoicStrategy Parent) :
    StoicStrategy Parent :=
  { s with strategyDict := emptyStoicDict }

/-- The RSI array computed in batch mode: one value per shift s in
range(shift, window + shift), via parent.get_rsi(data, window, shift=s). -/
def stoicRsiValues {Parent Bar : Type} (get_rsi : Parent → List Bar → ℕ → ℤ → ℚ)
    (p : Parent) (data : List Bar) (window : ℕ) (shift : ℤ) : List ℚ :=
  (List.range window).map (fun (i : ℕ) => get_rsi p data window (shift + (i : ℤ)))

/-- The RSI array computed in live mode via parent.dataView.get_rsi. -/
def stoicLiveRsiValues {Parent : Type} (live_rsi : Parent → ℕ → ℤ → Bool → ℚ)
    (p : Parent) (window : ℕ) (shift : ℤ) (update : Bool) : List ℚ :=
  (List.range window).map (fun (i : ℕ) => live_rsi p window (shift + (i : ℤ)) update)

/-- Body of StoicStrategy.get_trend after the RSI arrays are available
(both call modes share it).  Takes the rolling-state mapping and the current
trend field, returns the updated mapping, the updated trend field, and the
returned value or the error raised. -/
def stoicCore (input3 : ℕ) (precision : ℤ) (rsi1 rsi2 : List ℚ)
    (d : StoicDict) (t : Option Trend) :
    StoicDict × Option Trend × Except PyErr (Option Trend) :=
  match rsi1 with
  | [] => (d, t, Except.error PyErr.valueError)
  | _ :: _ =>
    let seneca := pymax rsi1 - pymin rsi1
    let d := { d with seneca := seneca :: d.seneca }
    let zeno := rsi1.headD 0 - pymin rsi1
    let d := { d with zeno := zeno :: d.zeno }
    match rsi2 with
    | [] => (d, t, Except.error PyErr.valueError)
    | _ :: _ =>
      let gaius := rsi2.headD 0 - pymin rsi2
      let d := { d with gaius := gaius :: d.gaius }
      let philo := pymax rsi2 - pymin rsi2
      let d := { d with philo := philo :: d.philo }
      if d.gaius.length < 3 then (d, none, Except.ok none)
      else if (d.philo.take 3).sum = 0 then (d, t, Except.error PyErr.zeroDiv)
      else
        let hadot := (d.gaius.take 3).sum / (d.philo.take 3).sum * 100
        let d := { d with hadot := hadot :: d.hadot }
        if d.hadot.length < 3 then (d, none, Except.ok none)
        else if (d.seneca.take 3).sum = 0 then (d, t, Except.error PyErr.zeroDiv)
        else
          let stoic := (d.zeno.take 3).sum / (d.seneca.take 3).sum * 100
          if input3 = 0 then (d, t, Except.error PyErr.zeroDiv)
          else
            let marcus := (d.hadot.take input3).sum / (input3 : ℚ)
            let vals : StoicValues :=
              ⟨pyround precision marcus, pyround precision stoic,
               pyround precision seneca, pyround precision zeno,
               pyround precision gaius, pyround precision philo,
               pyround precision hadot⟩
            let d := { d with values := some vals }
            let newTrend : Option Trend :=
              if marcus > stoic then some Trend.BEARISH
              else if marcus < stoic then some Trend.BULLISH
              else none
            (d, newTrend, Except.ok newTrend)

/-- StoicStrategy.get_trend.  A nonempty data list selects batch mode (Python
truthiness of the data argument); an empty data list stands for data=None or
data=[] and selects live mode. -/
def StoicStrategy.get_trend {Parent Bar : Type}
    (get_rsi : Parent → List Bar → ℕ → ℤ → ℚ)
    (live_rsi : Parent → ℕ → ℤ → Bool → ℚ)
    (s : StoicStrategy Parent) (data : List Bar) (shift : ℤ) (update : Bool) :
    StoicStrategy Parent × Except PyErr (Option Trend) :=
  let input1 := s.stoicInput1
  let input2 := s.stoicInput2
  let input3 := s.stoicInput3
  if data.isEmpty = false then
    if data.length ≤ max input1 (max input2 input3) then (s, Except.ok none)
    else
      let rsi1 := stoicRsiValues get_rsi s.parent data input1 shift
      let rsi2 := stoicRsiValues get_rsi s.parent data input2 shift
      let r := stoicCore input3 s.precision rsi1 rsi2 s.strategyDict s.trend
      ({ s with strategyDict := r.1, trend := r.2.1 }, r.2.2)
  else
    let rsi1 := stoicLiveRsiValues live_rsi s.parent input1 shift update
    let rsi2 := stoicLiveRsiValues live_rsi s.parent input2 shift update
    let r := stoicCore input3 s.precision rsi1 rsi2 s.strategyDict s.trend
    ({ s with strategyDict := r.1, trend := r.2.1 }, r.2.2)

/-- StoicStrategy.get_params. -/
def StoicStrategy.get_params {Parent : Type} (s : StoicStrategy Parent) : List ℕ :=
  [s.stoicInput1, s.stoicInput2, s.stoicInput3]

/-- Rounded scalars stored under the values key by ShrekStrategy.get_trend. -/
structure ShrekValues where
  apple : ℚ
  beetle : ℚ
  carrot : ℚ
  donkey : ℚ
  onion : ℚ
deriving DecidableEq

/-- Rolling-state mapping of a ShrekStrategy: two oldest-first histories and
the optional values entry. -/
structure ShrekDict where
  apple : List ℚ
  beetle : List ℚ
  values : Option ShrekValues
deriving DecidableEq

/-- The empty rolling-state mapping of a ShrekStrategy. -/
def emptyShrekDict : ShrekDict := ⟨[], [], none⟩

/-- A ShrekStrategy instance: base-class fields flattened together with the
four parameters one (lower bound), two (RSI window), three (rolling-sum
window), four (upper bound). -/
structure ShrekStrategy (Parent : Type) where
  name : String
  parent : Parent
  precision : ℤ
  trend : Option Trend
  strategyDict : ShrekDict
  one : ℤ
  two : ℕ
  three : ℕ
  four : ℤ

/-- Constructor of ShrekStrategy: name Shrek, trend None, empty dictionary. -/
def mkShrekStrategy {Parent : Type} (parent : Parent) (one : ℤ) (two three : ℕ)
    (four : ℤ) (precision : ℤ) : ShrekStrategy Parent :=
  ⟨"Shrek", parent, precision, none, emptyShrekDict, one, two, three, four⟩

/-- Base-class reset_strategy_dictionary, specialised to ShrekStrategy. -/
def ShrekStrategy.reset_strategy_dictionary {Parent : Type} (s : ShrekStrategy Parent) :
    ShrekStrategy Parent :=
  { s with strategyDict := emptyShrekDict }

/-- The RSI array computed in batch mode by ShrekStrategy.get_trend: one value
per x in range(two + 1) via parent.get_rsi(data, two, shift=x).  The shift
argument of get_trend is ignored here, exactly as in the source. -/
def shrekRsiValues {Parent Bar : Type} (get_rsi : Parent → List Bar → ℕ → ℤ → ℚ)
    (p : Parent) (data : List Bar) (two : ℕ) : List ℚ :=
  (List.range (two + 1)).map (fun (x : ℕ) => get_rsi p data two (x : ℤ))

/-- The RSI array computed in live mode by ShrekStrategy.get_trend. -/
def shrekLiveRsiValues {Parent : Type} (live_rsi : Parent → ℕ → ℤ → Bool → ℚ)
    (p : Parent) (two : ℕ) (update : Bool) : List ℚ :=
  (List.range (two + 1)).map (fun (x : ℕ) => live_rsi p two (x : ℤ) update)

/-- The append phase of ShrekStrategy.get_trend: the freshly derived apple
value is appended to the apple history, then the beetle value to the beetle
history (oldest-first accumulation). -/
def shrekAppend (appleV beetleV : ℚ) (d : ShrekDict) : ShrekDict :=
  let d := { d with apple := d.apple ++ [appleV] }
  { d with beetle := d.beetle ++ [beetleV] }

/-- Body of ShrekStrategy.get_trend after the RSI array is available (both
call modes share it).  Returns the updated mapping, the updated trend field,
and the returned value or the error raised. -/
def shrekCore (one : ℤ) (three : ℕ) (four : ℤ) (precision : ℤ) (rsi : List ℚ)
    (d : ShrekDict) (t : Option Trend) :
    ShrekDict × Option Trend × Except PyErr (Option Trend) :=
  match rsi with
  | [] => (d, t, Except.error PyErr.indexError)
  | _ :: _ =>
    let rsi_two := rsi.headD 0
    let apple := pymax rsi - pymin rsi
    let beetle := rsi_two - pymin rsi
    let d := shrekAppend apple beetle d
    if d.apple.length < three + 1 then (d, t, Except.ok none)
    else
      let carrot := (d.beetle.take (three + 1)).sum
      let donkey := (d.apple.take (three + 1)).sum
      let d := { d with beetle := d.beetle.drop 1, apple := d.apple.drop 1 }
      if donkey = 0 then (d, t, Except.error PyErr.zeroDiv)
      else
        let onion := carrot / donkey * 100
        let vals : ShrekValues :=
          ⟨pyround precision apple, pyround precision beetle,
           pyround precision carrot, pyround precision donkey,
           pyround precision onion⟩
        let d := { d with values := some vals }
        let newTrend : Option Trend :=
          if (one : ℚ) > onion then some Trend.BULLISH
          else if onion > (four : ℚ) then some Trend.BEARISH
          else none
        (d, newTrend, Except.ok newTrend)

/-- ShrekStrategy.get_trend.  A nonempty data list selects batch mode, an
empty one live mode, as for StoicStrategy. -/
def ShrekStrategy.get_trend {Parent Bar : Type}
    (get_rsi : Parent → List Bar → ℕ → ℤ → ℚ)
    (live_rsi : Parent → ℕ → ℤ → Bool → ℚ)
    (s : ShrekStrategy Parent) (data : List Bar) (shift : ℤ) (update : Bool) :
    ShrekStrategy Parent × Except PyErr (Option Trend) :=
  if data.isEmpty = false then
    if data.length ≤ s.two + 1 then (s, Except.ok none)
    else
      let rsi := shrekRsiValues get_rsi s.parent data s.two
      let r := shrekCore s.one s.three s.four s.precision rsi s.strategyDict s.trend
      ({ s with strategyDict := r.1, trend := r.2.1 }, r.2.2)
  else
    let rsi := shrekLiveRsiValues live_rsi s.parent s.two update
    let r := shrekCore s.one s.three s.four s.precision rsi s.strategyDict s.trend
    ({ s with strategyDict := r.1, trend := r.2.1 }, r.2.2)

/-- ShrekStrategy.get_params. -/
def ShrekStrategy.get_params {Parent : Type} (s : ShrekStrategy Parent) : List ℤ :=
  [s.one, (s.two : ℤ), (s.three : ℤ), s.four]

/-- The Trading Option value object consumed by MovingAverageStrategy: kind of
moving average, parameter name, and the two window bounds to compare.  It is
defined in an external module; this mirrors the attributes the engine reads. -/
structure TradingOption where
  movingAverage : String
  parameter : String
  initialBound : ℕ
  finalBound : ℕ
deriving DecidableEq

/-- A MovingAverageStrategy instance: base-class fields flattened together
with the list of trading options.  The engine never writes to its
strategyDict; the mapping is modelled as an association list that stays
empty. -/
structure MovingAverageStrategy (Parent : Type) where
  name : String
  parent : Parent
  precision : ℤ
  trend : Option Trend
  strategyDict : List (String × ℚ)
  tradingOptions : List TradingOption

/-- Constructor of MovingAverageStrategy: name movingAverage, trend None,
empty dictionary.  validate_options only checks that every element is of the
exact Option value-object type, which the Lean type of the field enforces. -/
def mkMovingAverageStrategy {Parent : Type} (parent : Parent)
    (tradingOptions : List TradingOption) (precision : ℤ) :
    MovingAverageStrategy Parent :=
  ⟨"movingAverage", parent, precision, none, [], tradingOptions⟩

/-- Base-class reset_strategy_dictionary, specialised to MovingAverageStrategy. -/
def MovingAverageStrategy.reset_strategy_dictionary {Parent : Type}
    (s : MovingAverageStrategy Parent) : MovingAverageStrategy Parent :=
  { s with strategyDict := [] }

/-- The per-option votes of MovingAverageStrategy.get_trend: for each option,
BULLISH when the initialBound moving average exceeds the finalBound one,
BEARISH when it is below, None when they are equal. -/
def maVotes {Parent Bar : Type} (get_moving_average : Parent → List Bar → String → ℕ → String → ℚ)
    (p : Parent) (tradingOptions : List TradingOption) (data : List Bar) :
    List (Option Trend) :=
  tradingOptions.map (fun option =>
    let avg1 := get_moving_average p data option.movingAverage option.initialBound option.parameter
    let avg2 := get_moving_average p data option.movingAverage option.finalBound option.parameter
    if avg1 > avg2 then some Trend.BULLISH
    else if avg1 < avg2 then some Trend.BEARISH
    else none)

/-- MovingAverageStrategy.get_trend: strict unanimity over the per-option
votes. -/
def MovingAverageStrategy.get_trend {Parent Bar : Type}
    (get_moving_average : Parent → List Bar → String → ℕ → String → ℚ)
    (s : MovingAverageStrategy Parent) (data : List Bar) :
    MovingAverageStrategy Parent × Option Trend :=
  let trends := maVotes get_moving_average s.parent s.tradingOptions data
  let newTrend : Option Trend :=
    if trends.all (fun trend => decide (trend = some Trend.BULLISH)) then some Trend.BULLISH
    else if trends.all (fun trend => decide (trend = some Trend.BEARISH)) then some Trend.BEARISH
    else none
  ({ s with trend := newTrend }, newTrend)

/-- MovingAverageStrategy.get_min_option_period: the maximum of all bounds of
all options, starting from 0. -/
def MovingAverageStrategy.get_min_option_period {Parent : Type}
    (s : MovingAverageStrategy Parent) : ℕ :=
  s.tradingOptions.foldl (fun minimum option =>
    max (max minimum option.finalBound) option.initialBound) 0

/-- MovingAverageStrategy.get_params. -/
def MovingAverageStrategy.get_params {Parent : Type}
    (s : MovingAverageStrategy Parent) : List TradingOption :=
  s.tradingOptions

deriving instance DecidableEq for Except

/-- Claim C9: for a MovingAverageStrategy constructed with an empty list of
trading options, get_trend returns BULLISH (the universal BULLISH check is
vacuously true over zero votes) and get_min_option_period returns 0, for any
input data. -/
theorem movingaverage_empty_options {Parent Bar : Type}
    (get_moving_average : Parent → List Bar → String → ℕ → String → ℚ)
    (parent : Parent) (precision : ℤ) (data : List Bar) :
    (MovingAverageStrategy.get_trend get_moving_average
        (mkMovingAverageStrategy parent ([] : List TradingOption) precision) data).2
      = some Trend.BULLISH
    ∧ (mkMovingAverageStrategy parent ([] : List TradingOption)
        precision).get_min_option_period = 0 :=
  ⟨rfl, rfl⟩

/-- Claim C10: for every strategy, reset_strategy_dictionary mutates only the
rolling-state mapping; the retained current-trend field, name, parent,
precision and all rule parameters are left unchanged, so the last computed
classification remains visible after a reset. -/
theorem reset_mutates_only_strategy_dictionary {Parent : Type} :
    (∀ s : StoicStrategy Parent,
       s.reset_strategy_dictionary.name = s.name ∧
       s.reset_strategy_dictionary.parent = s.parent ∧
       s.reset_strategy_dictionary.precision = s.precision ∧
       s.reset_strategy_dictionary.trend = s.trend ∧
       s.reset_strategy_dictionary.stoicInput1 = s.stoicInput1 ∧
       s.reset_strategy_dictionary.stoicInput2 = s.stoicInput2 ∧
       s.reset_strategy_dictionary.stoicInput3 = s.stoicInput3 ∧
       s.reset_strategy_dictionary.strategyDict = emptyStoicDict) ∧
    (∀ s : ShrekStrategy Parent,
       s.reset_strategy_dictionary.name = s.name ∧
       s.reset_strategy_dictionary.parent = s.parent ∧
       s.reset_strategy_dictionary.precision = s.precision ∧
       s.reset_strategy_dictionary.trend = s.trend ∧
       s.reset_strategy_dictionary.one = s.one ∧
       s.reset_strategy_dictionary.two = s.two ∧
       s.reset_strategy_dictionary.three = s.three ∧
       s.reset_strategy_dictionary.four = s.four ∧
       s.reset_strategy_dictionary.strategyDict = emptyShrekDict) ∧
    (∀ s : MovingAverageStrategy Parent,
       s.reset_strategy_dictionary.name = s.name ∧
       s.reset_strategy_dictionary.parent = s.parent ∧
       s.reset_strategy_dictionary.precision = s.precision ∧
       s.reset_strategy_dictionary.trend = s.trend ∧
       s.reset_strategy_dictionary.tradingOptions = s.tradingOptions ∧
       s.reset_strategy_dictionary.strategyDict = []) :=
  ⟨fun _ => ⟨rfl, rfl, rfl, rfl, rfl, rfl, rfl, rfl⟩,
   fun _ => ⟨rfl, rfl, rfl, rfl, rfl, rfl, rfl, rfl, rfl⟩,
   fun _ => ⟨rfl, rfl, rfl, rfl, rfl, rfl⟩⟩

/-- Claim C6: for StoicStrategy.get_trend called in batch mode, if the batch
data length is at most max(input1, input2, input3), it returns None and the
whole instance, in particular the rolling-state mapping, is left completely
unchanged. -/
theorem stoic_insufficient_batch_no_mutation {Parent Bar : Type}
    (get_rsi : Parent → List Bar → ℕ → ℤ → ℚ) (live_rsi : Parent → ℕ → ℤ → Bool → ℚ)
    (s : StoicStrategy Parent) (data : List Bar) (shift : ℤ) (update : Bool)
    (hne : data ≠ [])
    (hlen : data.length ≤ max s.stoicInput1 (max s.stoicInput2 s.stoicInput3)) :
    StoicStrategy.get_trend get_rsi live_rsi s data shift update = (s, Except.ok none) := by
  rcases data with _ | ⟨b, bs⟩
  · exact absurd rfl hne
  · simp only [StoicStrategy.get_trend, List.isEmpty_cons]
    rw [if_pos trivial, if_pos hlen]

/-- Witness for stoic_insufficient_batch_no_mutation at a concrete instance. -/
theorem stoic_insufficient_batch_no_mutation_witness :
    (([()] : List Unit) ≠ []) ∧
    (([()] : List Unit).length ≤ max (mkStoicStrategy () 2 2 2 2 : StoicStrategy Unit).stoicInput1
      (max (mkStoicStrategy () 2 2 2 2 : StoicStrategy Unit).stoicInput2
        (mkStoicStrategy () 2 2 2 2 : StoicStrategy Unit).stoicInput3)) ∧
    StoicStrategy.get_trend (fun _ _ _ _ => (50 : ℚ)) (fun _ _ _ _ => (50 : ℚ))
        (mkStoicStrategy () 2 2 2 2) [()] 0 false
      = (mkStoicStrategy () 2 2 2 2, Except.ok none) :=
  ⟨by decide, by decide,
   stoic_insufficient_batch_no_mutation _ _ _ _ _ _ (by decide) (by decide)⟩

/-- Claim C2: in StoicStrategy.get_trend, whenever the full computation is
reached (at least 3 accumulated gaius and philo samples, at least 3
accumulated hadot samples, and every divisor nonzero so that no arithmetic
error is raised), the returned trend is BEARISH if marcus exceeds stoic,
BULLISH if marcus is below stoic, and None if they are equal, where stoic and
marcus are given by the documented formulas over the newest-first updated
histories, marcus summing up to input3 hadot values but always dividing by
input3.  Stated over stoicCore, the shared body of both call modes of
get_trend. -/
theorem stoic_full_computation_classification (input3 : ℕ) (precision : ℤ)
    (rsi1 rsi2 : List ℚ) (d : StoicDict) (t : Option Trend)
    (seneca zeno gaius philo hadot stoic marcus : ℚ)
    (h1 : rsi1 ≠ []) (h2 : rsi2 ≠ [])
    (hseneca : seneca = pymax rsi1 - pymin rsi1)
    (hzeno : zeno = rsi1.headD 0 - pymin rsi1)
    (hgaius : gaius = rsi2.headD 0 - pymin rsi2)
    (hphilo : philo = pymax rsi2 - pymin rsi2)
    (hg : 3 ≤ (gaius :: d.gaius).length)
    (hpsum : ((philo :: d.philo).take 3).sum ≠ 0)
    (hhadot : hadot = ((gaius :: d.gaius).take 3).sum / ((philo :: d.philo).take 3).sum * 100)
    (hh : 3 ≤ (hadot :: d.hadot).length)
    (hssum : ((seneca :: d.seneca).take 3).sum ≠ 0)
    (hstoic : stoic = ((zeno :: d.zeno).take 3).sum / ((seneca :: d.seneca).take 3).sum * 100)
    (hi3 : input3 ≠ 0)
    (hmarcus : marcus = ((hadot :: d.hadot).take input3).sum / (input3 : ℚ)) :
    (stoicCore input3 precision rsi1 rsi2 d t).2.2 =
      Except.ok (if marcus > stoic then some Trend.BEARISH
                 else if marcus < stoic then some Trend.BULLISH
                 else none) := by
  rcases rsi1 with _ | ⟨a, as⟩
  · exact absurd rfl h1
  rcases rsi2 with _ | ⟨b, bs⟩
  · exact absurd rfl h2
  subst hseneca hzeno hgaius hphilo hhadot hstoic hmarcus
  simp only [stoicCore]
  rw [if_neg (by simp only [List.length_cons] at hg ⊢; omega)]
  rw [if_neg (by simpa using hpsum)]
  rw [if_neg (by simp only [List.length_cons] at hh ⊢; omega)]
  rw [if_neg (by simpa using hssum)]
  rw [if_neg hi3]

unseal Rat.add Rat.sub Rat.mul Rat.inv in
/-- Witness for stoic_full_computation_classification at a concrete state in
which marcus and stoic are equal, so the classification is None. -/
theorem stoic_full_computation_classification_witness :
    (([60, 40] : List ℚ) ≠ []) ∧ (([55, 45] : List ℚ) ≠ []) ∧
    ((20 : ℚ) = pymax [60, 40] - pymin [60, 40]) ∧
    ((20 : ℚ) = ([60, 40] : List ℚ).headD 0 - pymin [60, 40]) ∧
    ((10 : ℚ) = ([55, 45] : List ℚ).headD 0 - pymin [55, 45]) ∧
    ((10 : ℚ) = pymax [55, 45] - pymin [55, 45]) ∧
    (3 ≤ ([(10 : ℚ), 10, 10] : List ℚ).length) ∧
    ((([(10 : ℚ), 10, 10] : List ℚ).take 3).sum ≠ 0) ∧
    ((100 : ℚ) = (([(10 : ℚ), 10, 10] : List ℚ).take 3).sum
        / (([(10 : ℚ), 10, 10] : List ℚ).take 3).sum * 100) ∧
    (3 ≤ ([(100 : ℚ), 100, 100] : List ℚ).length) ∧
    ((([(20 : ℚ), 20, 20] : List ℚ).take 3).sum ≠ 0) ∧
    ((100 : ℚ) = (([(20 : ℚ), 20, 20] : List ℚ).take 3).sum
        / (([(20 : ℚ), 20, 20] : List ℚ).take 3).sum * 100) ∧
    ((3 : ℕ) ≠ 0) ∧
    ((100 : ℚ) = (([(100 : ℚ), 100, 100] : List ℚ).take 3).sum / ((3 : ℕ) : ℚ)) ∧
    (stoicCore 3 2 [60, 40] [55, 45]
        ⟨[20, 20], [20, 20], [10, 10], [10, 10], [100, 100], none⟩ none).2.2 =
      Except.ok (if (100 : ℚ) > 100 then some Trend.BEARISH
                 else if (100 : ℚ) < 100 then some Trend.BULLISH
                 else none) :=
  ⟨by decide, by decide, by decide, by decide, by decide, by decide, by decide,
   by decide, by decide, by decide, by decide, by decide, by decide, by decide,
   stoic_full_computation_classification 3 2 [60, 40] [55, 45]
     ⟨[20, 20], [20, 20], [10, 10], [10, 10], [100, 100], none⟩ none
     20 20 10 10 100 100 100
     (by decide) (by decide) (by decide) (by decide) (by decide) (by decide)
     (by decide) (by decide) (by decide) (by decide) (by decide) (by decide)
     (by decide) (by decide)⟩

/-- Claim C3: in ShrekStrategy.get_trend, whenever the history is long enough
to compute onion = carrot / donkey * 100 (carrot and donkey being the sums of
the first three+1 elements of the updated beetle and apple histories, and
donkey nonzero so the division succeeds), the returned trend is BULLISH if
one exceeds onion, BEARISH if onion exceeds four, and None otherwise, in
particular None whenever one is at most onion and onion is at most four.
Stated over shrekCore, the shared body of both call modes of get_trend. -/
theorem shrek_onion_classification (one : ℤ) (three : ℕ) (four precision : ℤ)
    (rsi : List ℚ) (d : ShrekDict) (t : Option Trend)
    (apple beetle carrot donkey onion : ℚ)
    (h0 : rsi ≠ [])
    (happle : apple = pymax rsi - pymin rsi)
    (hbeetle : beetle = rsi.headD 0 - pymin rsi)
    (hlen : three + 1 ≤ (d.apple ++ [apple]).length)
    (hcarrot : carrot = ((d.beetle ++ [beetle]).take (three + 1)).sum)
    (hdonkey : donkey = ((d.apple ++ [apple]).take (three + 1)).sum)
    (hdz : donkey ≠ 0)
    (honion : onion = carrot / donkey * 100) :
    (shrekCore one three four precision rsi d t).2.2 =
      Except.ok (if (one : ℚ) > onion then some Trend.BULLISH
                 else if onion > (four : ℚ) then some Trend.BEARISH
                 else none) := by
  rcases rsi with _ | ⟨a, as⟩
  · exact absurd rfl h0
  subst happle hbeetle hcarrot hdonkey honion
  simp only [shrekCore, shrekAppend]
  rw [if_neg (by simp only [List.length_append, List.length_cons] at hlen ⊢; omega)]
  rw [if_neg hdz]

unseal Rat.add Rat.sub Rat.mul Rat.inv in
/-- Witness for shrek_onion_classification at a concrete state in which onion
exceeds the upper bound four, so the classification is BEARISH. -/
theorem shrek_onion_classification_witness :
    (([50, 40] : List ℚ) ≠ []) ∧
    ((10 : ℚ) = pymax [50, 40] - pymin [50, 40]) ∧
    ((10 : ℚ) = ([50, 40] : List ℚ).headD 0 - pymin [50, 40]) ∧
    (1 + 1 ≤ (([(5 : ℚ)] : List ℚ) ++ [10]).length) ∧
    ((15 : ℚ) = ((([(5 : ℚ)] : List ℚ) ++ [10]).take (1 + 1)).sum) ∧
    ((15 : ℚ) = ((([(5 : ℚ)] : List ℚ) ++ [10]).take (1 + 1)).sum) ∧
    ((15 : ℚ) ≠ 0) ∧
    ((100 : ℚ) = (15 : ℚ) / 15 * 100) ∧
    (shrekCore 30 1 70 2 [50, 40] ⟨[5], [5], none⟩ none).2.2 =
      Except.ok (if ((30 : ℤ) : ℚ) > 100 then some Trend.BULLISH
                 else if (100 : ℚ) > ((70 : ℤ) : ℚ) then some Trend.BEARISH
                 else none) :=
  ⟨by decide, by decide, by decide, by decide, by decide, by decide, by decide,
   by decide,
   shrek_onion_classification 30 1 70 2 [50, 40] ⟨[5], [5], none⟩ none
     10 10 15 15 100
     (by decide) (by decide) (by decide) (by decide) (by decide) (by decide)
     (by decide) (by decide)⟩

unseal Rat.add Rat.sub Rat.mul Rat.inv in
/-- Counterexample to claim C1: a MovingAverageStrategy called with an
explicit batch history of length 1, shorter than its documented minimum
window get_min_option_period = 10, does not return None: its get_trend
performs no history-length check and here returns BULLISH. -/
theorem insufficient_batch_ma_counterexample :
    (([()] : List Unit).length <
      (mkMovingAverageStrategy () [⟨"sma", "close", 5, 10⟩] 2
        : MovingAverageStrategy Unit).get_min_option_period) ∧
    (MovingAverageStrategy.get_trend
        (fun _ _ _ b _ => if b = 5 then (2 : ℚ) else 1)
        (mkMovingAverageStrategy () [⟨"sma", "close", 5, 10⟩] 2) [()]).2 ≠ none :=
  ⟨by decide, by decide⟩

unseal Rat.add Rat.sub Rat.mul Rat.inv in
/-- Claim C1, amended: for StoicStrategy and ShrekStrategy, get_trend called
with a nonempty explicit batch history shorter than the documented minimum
window returns None and raises no error; MovingAverageStrategy performs no
history-length check: its result is the unanimity of the per-option
moving-average comparisons regardless of history length, and on a history
shorter than get_min_option_period it can return a trend, here BULLISH. -/
theorem insufficient_batch_returns_none_amended :
    (∀ (Parent Bar : Type) (get_rsi : Parent → List Bar → ℕ → ℤ → ℚ)
       (live_rsi : Parent → ℕ → ℤ → Bool → ℚ) (s : StoicStrategy Parent)
       (data : List Bar) (shift : ℤ) (update : Bool),
       data ≠ [] →
       data.length ≤ max s.stoicInput1 (max s.stoicInput2 s.stoicInput3) →
       (StoicStrategy.get_trend get_rsi live_rsi s data shift update).2 = Except.ok none) ∧
    (∀ (Parent Bar : Type) (get_rsi : Parent → List Bar → ℕ → ℤ → ℚ)
       (live_rsi : Parent → ℕ → ℤ → Bool → ℚ) (s : ShrekStrategy Parent)
       (data : List Bar) (shift : ℤ) (update : Bool),
       data ≠ [] → data.length ≤ s.two + 1 →
       (ShrekStrategy.get_trend get_rsi live_rsi s data shift update).2 = Except.ok none) ∧
    (∀ (Parent Bar : Type) (get_moving_average : Parent → List Bar → String → ℕ → String → ℚ)
       (s : MovingAverageStrategy Parent) (data : List Bar),
       (MovingAverageStrategy.get_trend get_moving_average s data).2 =
         (if (maVotes get_moving_average s.parent s.tradingOptions data).all
              (fun trend => decide (trend = some Trend.BULLISH)) then some Trend.BULLISH
          else if (maVotes get_moving_average s.parent s.tradingOptions data).all
              (fun trend => decide (trend = some Trend.BEARISH)) then some Trend.BEARISH
          else none)) ∧
    ((([()] : List Unit).length <
       (mkMovingAverageStrategy () [⟨"sma", "close", 5, 10⟩] 2
         : MovingAverageStrategy Unit).get_min_option_period) ∧
     (MovingAverageStrategy.get_trend
         (fun _ _ _ b _ => if b = 5 then (2 : ℚ) else 1)
         (mkMovingAverageStrategy () [⟨"sma", "close", 5, 10⟩] 2) [()]).2
       = some Trend.BULLISH) := by
  refine ⟨?_, ?_, ?_, ?_, ?_⟩
  · intro Parent Bar get_rsi live_rsi s data shift update hne hlen
    rcases data with _ | ⟨b, bs⟩
    · exact absurd rfl hne
    · simp only [StoicStrategy.get_trend, List.isEmpty_cons]
      rw [if_pos trivial, if_pos hlen]
  · intro Parent Bar get_rsi live_rsi s data shift update hne hlen
    rcases data with _ | ⟨b, bs⟩
    · exact absurd rfl hne
    · simp only [ShrekStrategy.get_trend, List.isEmpty_cons]
      rw [if_pos trivial, if_pos hlen]
  · intro Parent Bar get_moving_average s data
    rfl
  · decide
  · decide

/-- Witness for the Stoic part of insufficient_batch_returns_none_amended at
a concrete short batch. -/
theorem insufficient_batch_returns_none_witness :
    (([()] : List Unit) ≠ []) ∧
    (([()] : List Unit).length ≤
      max (mkStoicStrategy () 2 2 2 2 : StoicStrategy Unit).stoicInput1
        (max (mkStoicStrategy () 2 2 2 2 : StoicStrategy Unit).stoicInput2
          (mkStoicStrategy () 2 2 2 2 : StoicStrategy Unit).stoicInput3)) ∧
    (StoicStrategy.get_trend (fun _ _ _ _ => (50 : ℚ)) (fun _ _ _ _ => (50 : ℚ))
        (mkStoicStrategy () 2 2 2 2) [()] 0 false).2 = Except.ok none :=
  ⟨by decide, by decide,
   insufficient_batch_returns_none_amended.1 Unit Unit _ _ _ _ _ _ (by decide) (by decide)⟩

/-- Counterexample to claim C4: for a MovingAverageStrategy with zero
options, the list of votes is empty, so every vote is (vacuously) BEARISH,
yet the overall trend is BULLISH, not BEARISH: the BEARISH direction of the
claimed equivalence fails on the empty vote list. -/
theorem ma_unanimity_counterexample :
    ¬ (((MovingAverageStrategy.get_trend (fun (_ : Unit) (_ : List Unit) _ _ _ => (1 : ℚ))
          (mkMovingAverageStrategy () ([] : List TradingOption) 2) ([] : List Unit)).2
        = some Trend.BEARISH)
      ↔ (∀ t ∈ maVotes (fun (_ : Unit) (_ : List Unit) _ _ _ => (1 : ℚ)) ()
            ([] : List TradingOption) ([] : List Unit), t = some Trend.BEARISH)) := by
  decide

/-- The returned component of MovingAverageStrategy.get_trend written as the
unanimity combination of the per-option votes. -/
lemma ma_get_trend_snd {Parent Bar : Type}
    (get_moving_average : Parent → List Bar → String → ℕ → String → ℚ)
    (s : MovingAverageStrategy Parent) (data : List Bar) :
    (MovingAverageStrategy.get_trend get_moving_average s data).2 =
      (if (maVotes get_moving_average s.parent s.tradingOptions data).all
           (fun trend => decide (trend = some Trend.BULLISH)) then some Trend.BULLISH
       else if (maVotes get_moving_average s.parent s.tradingOptions data).all
           (fun trend => decide (trend = some Trend.BEARISH)) then some Trend.BEARISH
       else none) := rfl

/-- Unanimity combination of an abstract list of votes: BULLISH exactly on
all-BULLISH votes; BEARISH exactly on all-BEARISH votes when at least one
vote exists; None on any None vote or any disagreement. -/
lemma ma_unanimity_of_votes (T : List (Option Trend)) :
    ((if T.all (fun trend => decide (trend = some Trend.BULLISH)) then some Trend.BULLISH
      else if T.all (fun trend => decide (trend = some Trend.BEARISH)) then some Trend.BEARISH
      else none) = some Trend.BULLISH ↔ ∀ t ∈ T, t = some Trend.BULLISH) ∧
    (T ≠ [] →
      ((if T.all (fun trend => decide (trend = some Trend.BULLISH)) then some Trend.BULLISH
        else if T.all (fun trend => decide (trend = some Trend.BEARISH)) then some Trend.BEARISH
        else none) = some Trend.BEARISH ↔ ∀ t ∈ T, t = some Trend.BEARISH)) ∧
    (((∃ t ∈ T, t = none) ∨ (∃ t1 ∈ T, ∃ t2 ∈ T, t1 ≠ t2)) →
      (if T.all (fun trend => decide (trend = some Trend.BULLISH)) then some Trend.BULLISH
       else if T.all (fun trend => decide (trend = some Trend.BEARISH)) then some Trend.BEARISH
       else none) = none) := by
  by_cases hB : ∀ t ∈ T, t = some Trend.BULLISH
  · have hb : T.all (fun trend => decide (trend = some Trend.BULLISH)) = true := by
      simpa using hB
    refine ⟨by simp only [hb, if_true]; exact iff_of_true trivial hB, ?_, ?_⟩
    · intro hne
      rcases List.exists_mem_of_ne_nil T hne with ⟨x, hx⟩
      simp only [hb, if_true]
      constructor
      · intro hEq; cases hEq
      · intro hBear
        have h1 := hB x hx
        have h2 := hBear x hx
        rw [h1] at h2
        cases h2
    · rintro (⟨x, hx, hxn⟩ | ⟨x, hx, y, hy, hxy⟩)
      · have h1 := hB x hx
        rw [h1] at hxn
        cases hxn
      · have h1 := hB x hx
        have h2 := hB y hy
        rw [h1, h2] at hxy
        exact absurd rfl hxy
  · have hb : T.all (fun trend => decide (trend = some Trend.BULLISH)) ≠ true := by
      simpa using hB
    by_cases hBear : ∀ t ∈ T, t = some Trend.BEARISH
    · have hbear : T.all (fun trend => decide (trend = some Trend.BEARISH)) = true := by
        simpa using hBear
      refine ⟨?_, ?_, ?_⟩
      · simp only [if_neg hb, hbear, if_true]
        constructor
        · intro hEq; cases hEq
        · intro hAllB; exact absurd hAllB hB
      · intro hne
        simp only [if_neg hb, hbear, if_true]
        exact iff_of_true trivial hBear
      · rintro (⟨x, hx, hxn⟩ | ⟨x, hx, y, hy, hxy⟩)
        · have h1 := hBear x hx
          rw [h1] at hxn
          cases hxn
        · have h1 := hBear x hx
          have h2 := hBear y hy
          rw [h1, h2] at hxy
          exact absurd rfl hxy
    · have hbear : T.all (fun trend => decide (trend = some Trend.BEARISH)) ≠ true := by
        simpa using hBear
      refine ⟨?_, ?_, ?_⟩
      · simp only [if_neg hb, if_neg hbear]
        constructor
        · intro hEq; cases hEq
        · intro hAllB; exact absurd hAllB hB
      · intro hne
        simp only [if_neg hb, if_neg hbear]
        constructor
        · intro hEq; cases hEq
        · intro hAllBear; exact absurd hAllBear hBear
      · intro hdis
        simp [hb, hbear]

unseal Rat.add Rat.sub Rat.mul Rat.inv in
/-- Claim C4, amended: for the votes computed by MovingAverageStrategy
get_trend, the overall trend is BULLISH iff every vote is BULLISH; when at
least one vote exists, it is BEARISH iff every vote is BEARISH (with zero
options the result is BULLISH although every vote is vacuously BEARISH); and
any None vote or any disagreement yields overall None.  In particular votes
[BULLISH, BULLISH, BEARISH] yield None and [BULLISH, BULLISH, BULLISH] yield
BULLISH. -/
theorem ma_unanimity_amended :
    (∀ (Parent Bar : Type) (get_moving_average : Parent → List Bar → String → ℕ → String → ℚ)
       (s : MovingAverageStrategy Parent) (data : List Bar),
       ((MovingAverageStrategy.get_trend get_moving_average s data).2 = some Trend.BULLISH ↔
         ∀ t ∈ maVotes get_moving_average s.parent s.tradingOptions data,
           t = some Trend.BULLISH) ∧
       (maVotes get_moving_average s.parent s.tradingOptions data ≠ [] →
         ((MovingAverageStrategy.get_trend get_moving_average s data).2 = some Trend.BEARISH ↔
           ∀ t ∈ maVotes get_moving_average s.parent s.tradingOptions data,
             t = some Trend.BEARISH)) ∧
       (((∃ t ∈ maVotes get_moving_average s.parent s.tradingOptions data, t = none) ∨
         (∃ t1 ∈ maVotes get_moving_average s.parent s.tradingOptions data,
          ∃ t2 ∈ maVotes get_moving_average s.parent s.tradingOptions data, t1 ≠ t2)) →
         (MovingAverageStrategy.get_trend get_moving_average s data).2 = none)) ∧
    ((maVotes (fun _ _ _ b _ => if b = 1 then (2 : ℚ) else if b = 3 then 2 else if b = 6 then 2 else 1)
        () [⟨"sma", "close", 1, 2⟩, ⟨"sma", "close", 3, 4⟩, ⟨"sma", "close", 5, 6⟩] ([()] : List Unit)
      = [some Trend.BULLISH, some Trend.BULLISH, some Trend.BEARISH]) ∧
     (MovingAverageStrategy.get_trend
        (fun _ _ _ b _ => if b = 1 then (2 : ℚ) else if b = 3 then 2 else if b = 6 then 2 else 1)
        (mkMovingAverageStrategy ()
          [⟨"sma", "close", 1, 2⟩, ⟨"sma", "close", 3, 4⟩, ⟨"sma", "close", 5, 6⟩] 2)
        ([()] : List Unit)).2 = none) ∧
    ((maVotes (fun _ _ _ b _ => if b % 2 = 1 then (2 : ℚ) else 1)
        () [⟨"sma", "close", 1, 2⟩, ⟨"sma", "close", 3, 4⟩, ⟨"sma", "close", 5, 6⟩] ([()] : List Unit)
      = [some Trend.BULLISH, some Trend.BULLISH, some Trend.BULLISH]) ∧
     (MovingAverageStrategy.get_trend
        (fun _ _ _ b _ => if b % 2 = 1 then (2 : ℚ) else 1)
        (mkMovingAverageStrategy ()
          [⟨"sma", "close", 1, 2⟩, ⟨"sma", "close", 3, 4⟩, ⟨"sma", "close", 5, 6⟩] 2)
        ([()] : List Unit)).2 = some Trend.BULLISH) := by
  refine ⟨?_, ⟨?_, ?_⟩, ⟨?_, ?_⟩⟩
  · intro Parent Bar get_moving_average s data
    rw [ma_get_trend_snd]
    exact ma_unanimity_of_votes (maVotes get_moving_average s.parent s.tradingOptions data)
  · decide
  · decide
  · decide
  · decide

unseal Rat.add Rat.sub Rat.mul Rat.inv in
/-- Witness for the hypothesis-bearing components of ma_unanimity_amended at
a concrete one-option strategy whose single vote is BEARISH. -/
theorem ma_unanimity_amended_witness :
    (maVotes (fun _ _ _ b _ => if b = 5 then (1 : ℚ) else 2)
        () [⟨"sma", "close", 5, 10⟩] ([()] : List Unit) ≠ []) ∧
    ((MovingAverageStrategy.get_trend (fun _ _ _ b _ => if b = 5 then (1 : ℚ) else 2)
        (mkMovingAverageStrategy () [⟨"sma", "close", 5, 10⟩] 2) ([()] : List Unit)).2
      = some Trend.BEARISH ↔
      ∀ t ∈ maVotes (fun _ _ _ b _ => if b = 5 then (1 : ℚ) else 2)
          () [⟨"sma", "close", 5, 10⟩] ([()] : List Unit), t = some Trend.BEARISH) :=
  ⟨by decide,
   (ma_unanimity_amended.1 Unit Unit (fun _ _ _ b _ => if b = 5 then (1 : ℚ) else 2)
     (mkMovingAverageStrategy () [⟨"sma", "close", 5, 10⟩] 2) [()]).2.1 (by decide)⟩

/-- The batch-mode RSI array is nonempty exactly when the window is nonzero. -/
lemma stoicRsiValues_ne_nil {Parent Bar : Type} (get_rsi : Parent → List Bar → ℕ → ℤ → ℚ)
    (p : Parent) (data : List Bar) (window : ℕ) (shift : ℤ) (h : window ≠ 0) :
    stoicRsiValues get_rsi p data window shift ≠ [] := by
  simp only [stoicRsiValues, ne_eq, List.map_eq_nil_iff, List.range_eq_nil]
  exact h

/-- Characterisation of the ZeroDivisionError raised by the shared body of
StoicStrategy.get_trend: it is raised exactly when one of the three divisions
is reached with a zero divisor, in the order the code evaluates them. -/
lemma stoicCore_zeroDiv_iff (input3 : ℕ) (precision : ℤ) (rsi1 rsi2 : List ℚ)
    (d : StoicDict) (t : Option Trend) (h1 : rsi1 ≠ []) (h2 : rsi2 ≠ []) :
    ((stoicCore input3 precision rsi1 rsi2 d t).2.2 = Except.error PyErr.zeroDiv ↔
      (3 ≤ ((rsi2.headD 0 - pymin rsi2) :: d.gaius).length ∧
        ((((pymax rsi2 - pymin rsi2) :: d.philo).take 3).sum = 0 ∨
         ((((pymax rsi2 - pymin rsi2) :: d.philo).take 3).sum ≠ 0 ∧
          3 ≤ (((((rsi2.headD 0 - pymin rsi2) :: d.gaius).take 3).sum /
                  (((pymax rsi2 - pymin rsi2) :: d.philo).take 3).sum * 100) :: d.hadot).length ∧
          ((((pymax rsi1 - pymin rsi1) :: d.seneca).take 3).sum = 0 ∨
           ((((pymax rsi1 - pymin rsi1) :: d.seneca).take 3).sum ≠ 0 ∧ input3 = 0)))))) := by
  rcases rsi1 with _ | ⟨a, as⟩
  · exact absurd rfl h1
  rcases rsi2 with _ | ⟨b, bs⟩
  · exact absurd rfl h2
  simp only [stoicCore]
  split_ifs with hg hp hh hs hi
  · refine iff_of_false (by simp) ?_
    rintro ⟨h3, _⟩
    simp only [List.length_cons] at h3 hg
    omega
  · refine iff_of_true rfl ⟨?_, Or.inl hp⟩
    simp only [List.length_cons] at hg ⊢
    omega
  · refine iff_of_false (by simp) ?_
    rintro ⟨_, hd | ⟨_, h3, _⟩⟩
    · exact hp hd
    · simp only [List.length_cons] at h3 hh
      omega
  · refine iff_of_true rfl ⟨?_, Or.inr ⟨hp, ?_, Or.inl hs⟩⟩
    · simp only [List.length_cons] at hg ⊢
      omega
    · simp only [List.length_cons] at hh ⊢
      omega
  · refine iff_of_true rfl ⟨?_, Or.inr ⟨hp, ?_, Or.inr ⟨hs, hi⟩⟩⟩
    · simp only [List.length_cons] at hg ⊢
      omega
    · simp only [List.length_cons] at hh ⊢
      omega
  · refine iff_of_false ?_ ?_
    · simp
    · rintro ⟨_, hd | ⟨_, _, hd2 | ⟨_, hd3⟩⟩⟩
      · exact hp hd
      · exact hs hd2
      · exact hi hd3

/-- Claim C8: StoicStrategy.get_trend (batch mode, with both RSI windows
nonzero so the RSI arrays are nonempty) raises an uncaught division-by-zero
arithmetic error, rather than returning a trend or catching it internally,
exactly when it reaches the corresponding division with sum(philo[:3]) = 0,
sum(seneca[:3]) = 0, or input3 = 0, over the updated newest-first
histories. -/
theorem stoic_zero_division_iff {Parent Bar : Type}
    (get_rsi : Parent → List Bar → ℕ → ℤ → ℚ) (live_rsi : Parent → ℕ → ℤ → Bool → ℚ)
    (s : StoicStrategy Parent) (data : List Bar) (shift : ℤ) (update : Bool)
    (rsi1 rsi2 : List ℚ) (gaius philo seneca hadot : ℚ)
    (hrsi1 : rsi1 = stoicRsiValues get_rsi s.parent data s.stoicInput1 shift)
    (hrsi2 : rsi2 = stoicRsiValues get_rsi s.parent data s.stoicInput2 shift)
    (hne : data ≠ [])
    (hlen : max s.stoicInput1 (max s.stoicInput2 s.stoicInput3) < data.length)
    (h1 : s.stoicInput1 ≠ 0) (h2 : s.stoicInput2 ≠ 0)
    (hgaius : gaius = rsi2.headD 0 - pymin rsi2)
    (hphilo : philo = pymax rsi2 - pymin rsi2)
    (hseneca : seneca = pymax rsi1 - pymin rsi1)
    (hhadot : hadot = ((gaius :: s.strategyDict.gaius).take 3).sum /
        ((philo :: s.strategyDict.philo).take 3).sum * 100) :
    ((StoicStrategy.get_trend get_rsi live_rsi s data shift update).2
        = Except.error PyErr.zeroDiv ↔
      (3 ≤ (gaius :: s.strategyDict.gaius).length ∧
        (((philo :: s.strategyDict.philo).take 3).sum = 0 ∨
         (((philo :: s.strategyDict.philo).take 3).sum ≠ 0 ∧
          3 ≤ (hadot :: s.strategyDict.hadot).length ∧
          (((seneca :: s.strategyDict.seneca).take 3).sum = 0 ∨
           (((seneca :: s.strategyDict.seneca).take 3).sum ≠ 0 ∧
            s.stoicInput3 = 0)))))) := by
  subst hgaius hphilo hseneca hhadot hrsi1 hrsi2
  rcases data with _ | ⟨b, bs⟩
  · exact absurd rfl hne
  simp only [StoicStrategy.get_trend, List.isEmpty_cons]
  rw [if_pos trivial, if_neg (not_le.mpr hlen)]
  exact stoicCore_zeroDiv_iff s.stoicInput3 s.precision _ _ s.strategyDict s.trend
    (stoicRsiValues_ne_nil get_rsi s.parent (b :: bs) s.stoicInput1 shift h1)
    (stoicRsiValues_ne_nil get_rsi s.parent (b :: bs) s.stoicInput2 shift h2)

unseal Rat.add Rat.sub Rat.mul Rat.inv in
/-- Witness for stoic_zero_division_iff: a flat RSI window makes the philo
sums zero, so the first division raises ZeroDivisionError. -/
theorem stoic_zero_division_iff_witness :
    (([(50 : ℚ)] : List ℚ) = stoicRsiValues (fun _ _ _ _ => (50 : ℚ)) () ([(), ()] : List Unit) 1 0) ∧
    (([(50 : ℚ)] : List ℚ) = stoicRsiValues (fun _ _ _ _ => (50 : ℚ)) () ([(), ()] : List Unit) 1 0) ∧
    (([(), ()] : List Unit) ≠ []) ∧
    (max (1 : ℕ) (max 1 1) < ([(), ()] : List Unit).length) ∧
    ((1 : ℕ) ≠ 0) ∧ ((1 : ℕ) ≠ 0) ∧
    ((0 : ℚ) = ([(50 : ℚ)] : List ℚ).headD 0 - pymin [(50 : ℚ)]) ∧
    ((0 : ℚ) = pymax [(50 : ℚ)] - pymin [(50 : ℚ)]) ∧
    ((0 : ℚ) = pymax [(50 : ℚ)] - pymin [(50 : ℚ)]) ∧
    ((0 : ℚ) = (([(0 : ℚ), 0, 0] : List ℚ).take 3).sum
        / (([(0 : ℚ), 0, 0] : List ℚ).take 3).sum * 100) ∧
    ((StoicStrategy.get_trend (fun _ _ _ _ => (50 : ℚ)) (fun _ _ _ _ => (50 : ℚ))
        (⟨"Stoic", (), 2, none, ⟨[0, 0], [0, 0], [0, 0], [0, 0], [], none⟩, 1, 1, 1⟩
          : StoicStrategy Unit)
        [(), ()] 0 false).2 = Except.error PyErr.zeroDiv ↔
      (3 ≤ ([(0 : ℚ), 0, 0] : List ℚ).length ∧
        ((([(0 : ℚ), 0, 0] : List ℚ).take 3).sum = 0 ∨
         ((([(0 : ℚ), 0, 0] : List ℚ).take 3).sum ≠ 0 ∧
          3 ≤ ([(0 : ℚ)] : List ℚ).length ∧
          ((([(0 : ℚ), 0, 0] : List ℚ).take 3).sum = 0 ∨
           ((([(0 : ℚ), 0, 0] : List ℚ).take 3).sum ≠ 0 ∧ (1 : ℕ) = 0)))))) :=
  ⟨by decide, by decide, by decide, by decide, by decide, by decide, by decide,
   by decide, by decide, by decide,
   stoic_zero_division_iff (fun _ _ _ _ => (50 : ℚ)) (fun _ _ _ _ => (50 : ℚ))
     (⟨"Stoic", (), 2, none, ⟨[0, 0], [0, 0], [0, 0], [0, 0], [], none⟩, 1, 1, 1⟩
       : StoicStrategy Unit)
     [(), ()] 0 false [(50 : ℚ)] [(50 : ℚ)] 0 0 0 0
     (by decide) (by decide) (by decide) (by decide) (by decide) (by decide)
     (by decide) (by decide) (by decide) (by decide)⟩

/-- Iterated evaluation of the shared body of ShrekStrategy.get_trend over a
sequence of RSI arrays, threading the rolling-state mapping and trend field
exactly as successive get_trend calls do. -/
def shrekRunCore (one : ℤ) (three : ℕ) (four precision : ℤ)
    (inputs : List (List ℚ)) (d : ShrekDict) (t : Option Trend) :
    ShrekDict × Option Trend :=
  match inputs with
  | [] => (d, t)
  | rsi :: rest =>
    let r := shrekCore one three four precision rsi d t
    shrekRunCore one three four precision rest r.1 r.2.1

/-- Shapes of the append phase of ShrekStrategy.get_trend. -/
lemma shrekAppend_fields (x y : ℚ) (d : ShrekDict) :
    (shrekAppend x y d).apple = d.apple ++ [x] ∧
    (shrekAppend x y d).beetle = d.beetle ++ [y] :=
  ⟨rfl, rfl⟩

/-- Below the window, a successful evaluation only appends: the histories
grow by one and no trimming happens. -/
lemma shrekCore_grow_step (one : ℤ) (three : ℕ) (four precision : ℤ)
    (rsi : List ℚ) (d : ShrekDict) (t : Option Trend)
    (hne : rsi ≠ []) (hlt : d.apple.length < three) :
    shrekCore one three four precision rsi d t =
      (shrekAppend (pymax rsi - pymin rsi) (rsi.headD 0 - pymin rsi) d,
       t, Except.ok none) := by
  rcases rsi with _ | ⟨a, as⟩
  · exact absurd rfl hne
  have hcond : (shrekAppend (pymax (a :: as) - pymin (a :: as))
      ((a :: as).headD 0 - pymin (a :: as)) d).apple.length < three + 1 := by
    have := (shrekAppend_fields (pymax (a :: as) - pymin (a :: as))
      ((a :: as).headD 0 - pymin (a :: as)) d).1
    rw [this, List.length_append]
    simpa using hlt
  simp only [shrekCore]
  rw [if_pos hcond]

/-- Once the window is full, an evaluation appends and then drops the oldest
element of each history, in both the successful and the zero-divisor case. -/
lemma shrekCore_trim (one : ℤ) (three : ℕ) (four precision : ℤ)
    (rsi : List ℚ) (d : ShrekDict) (t : Option Trend)
    (hne : rsi ≠ []) (hfull : three ≤ d.apple.length) :
    (shrekCore one three four precision rsi d t).1.apple
        = (shrekAppend (pymax rsi - pymin rsi) (rsi.headD 0 - pymin rsi) d).apple.drop 1 ∧
    (shrekCore one three four precision rsi d t).1.beetle
        = (shrekAppend (pymax rsi - pymin rsi) (rsi.headD 0 - pymin rsi) d).beetle.drop 1 := by
  rcases rsi with _ | ⟨a, as⟩
  · exact absurd rfl hne
  have hcond : ¬ (shrekAppend (pymax (a :: as) - pymin (a :: as))
      ((a :: as).headD 0 - pymin (a :: as)) d).apple.length < three + 1 := by
    have := (shrekAppend_fields (pymax (a :: as) - pymin (a :: as))
      ((a :: as).headD 0 - pymin (a :: as)) d).1
    rw [this, List.length_append]
    simp only [List.length_cons, List.length_nil]
    omega
  simp only [shrekCore]
  rw [if_neg hcond]
  split_ifs <;> exact ⟨rfl, rfl⟩

/-- Running below the window only appends: after n successful evaluations
with n at most three, the histories have grown by exactly n and the trend
field is untouched. -/
lemma shrekRunCore_grow (one : ℤ) (three : ℕ) (four precision : ℤ) :
    ∀ (inputs : List (List ℚ)) (d : ShrekDict) (t : Option Trend),
      (∀ r ∈ inputs, r ≠ []) →
      d.apple.length + inputs.length ≤ three →
      (shrekRunCore one three four precision inputs d t).1.apple.length
          = d.apple.length + inputs.length ∧
      (shrekRunCore one three four precision inputs d t).1.beetle.length
          = d.beetle.length + inputs.length := by
  intro inputs
  induction inputs with
  | nil => intro d t _ _; exact ⟨by simp [shrekRunCore], by simp [shrekRunCore]⟩
  | cons rsi rest ih =>
    intro d t hne hlen
    have hrne : rsi ≠ [] := hne rsi (by simp)
    have hlt : d.apple.length < three := by
      simp only [List.length_cons] at hlen
      omega
    have hstep := shrekCore_grow_step one three four precision rsi d t hrne hlt
    have hmid := shrekAppend_fields (pymax rsi - pymin rsi) (rsi.headD 0 - pymin rsi) d
    have hihyp : (shrekAppend (pymax rsi - pymin rsi) (rsi.headD 0 - pymin rsi) d).apple.length
        + rest.length ≤ three := by
      rw [hmid.1, List.length_append]
      simp only [List.length_cons] at hlen ⊢
      simp only [List.length_cons, List.length_nil]
      omega
    have hrec := ih (shrekAppend (pymax rsi - pymin rsi) (rsi.headD 0 - pymin rsi) d) t
      (fun r hr => hne r (by simp [hr])) hihyp
    rw [shrekRunCore, hstep]
    refine ⟨?_, ?_⟩
    · rw [hrec.1, hmid.1, List.length_append]
      simp only [List.length_cons, List.length_nil]
      omega
    · rw [hrec.2, hmid.2, List.length_append]
      simp only [List.length_cons, List.length_nil]
      omega

/-- One evaluation keeps the histories in lockstep and bounded by three. -/
lemma shrekCore_length_le (one : ℤ) (three : ℕ) (four precision : ℤ)
    (rsi : List ℚ) (d : ShrekDict) (t : Option Trend)
    (ha : d.apple.length ≤ three) (hb : d.beetle.length = d.apple.length) :
    (shrekCore one three four precision rsi d t).1.apple.length ≤ three ∧
    (shrekCore one three four precision rsi d t).1.beetle.length
        = (shrekCore one three four precision rsi d t).1.apple.length := by
  rcases rsi with _ | ⟨a, as⟩
  · exact ⟨ha, hb⟩
  rcases Nat.lt_or_ge d.apple.length three with hlt | hge
  · rw [shrekCore_grow_step one three four precision (a :: as) d t (by simp) hlt]
    have h1 := (shrekAppend_fields (pymax (a :: as) - pymin (a :: as))
      ((a :: as).headD 0 - pymin (a :: as)) d).1
    have h2 := (shrekAppend_fields (pymax (a :: as) - pymin (a :: as))
      ((a :: as).headD 0 - pymin (a :: as)) d).2
    refine ⟨?_, ?_⟩
    · rw [h1, List.length_append]
      simp only [List.length_cons, List.length_nil]
      omega
    · rw [h1, h2, List.length_append, List.length_append]
      simp only [List.length_cons, List.length_nil]
      omega
  · have htrim := shrekCore_trim one three four precision (a :: as) d t (by simp) hge
    have h1 := (shrekAppend_fields (pymax (a :: as) - pymin (a :: as))
      ((a :: as).headD 0 - pymin (a :: as)) d).1
    have h2 := (shrekAppend_fields (pymax (a :: as) - pymin (a :: as))
      ((a :: as).headD 0 - pymin (a :: as)) d).2
    refine ⟨?_, ?_⟩
    · rw [htrim.1, h1, List.length_drop, List.length_append]
      simp only [List.length_cons, List.length_nil]
      omega
    · rw [htrim.1, htrim.2, h1, h2, List.length_drop, List.length_drop,
        List.length_append, List.length_append]
      simp only [List.length_cons, List.length_nil]
      omega

/-- Running any sequence of evaluations from lockstep histories bounded by
three keeps them in lockstep and bounded by three. -/
lemma shrekRunCore_length_le (one : ℤ) (three : ℕ) (four precision : ℤ) :
    ∀ (inputs : List (List ℚ)) (d : ShrekDict) (t : Option Trend),
      d.apple.length ≤ three → d.beetle.length = d.apple.length →
      (shrekRunCore one three four precision inputs d t).1.apple.length ≤ three ∧
      (shrekRunCore one three four precision inputs d t).1.beetle.length
          = (shrekRunCore one three four precision inputs d t).1.apple.length := by
  intro inputs
  induction inputs with
  | nil => intro d t ha hb; exact ⟨ha, hb⟩
  | cons rsi rest ih =>
    intro d t ha hb
    have hstep := shrekCore_length_le one three four precision rsi d t ha hb
    rw [shrekRunCore]
    exact ih _ _ hstep.1 hstep.2

/-- Splitting a run of evaluations at any point. -/
lemma shrekRunCore_append (one : ℤ) (three : ℕ) (four precision : ℤ) :
    ∀ (l1 l2 : List (List ℚ)) (d : ShrekDict) (t : Option Trend),
      shrekRunCore one three four precision (l1 ++ l2) d t =
        shrekRunCore one three four precision l2
          (shrekRunCore one three four precision l1 d t).1
          (shrekRunCore one three four precision l1 d t).2 := by
  intro l1
  induction l1 with
  | nil => intro l2 d t; rfl
  | cons rsi rest ih =>
    intro l2 d t
    rw [List.cons_append, shrekRunCore, shrekRunCore]
    exact ih l2 _ _

/-- Claim C5: for ShrekStrategy, starting from the empty state, after exactly
three + 1 successful evaluations (three evaluations and one more, each with a
nonempty RSI array) the apple and beetle histories each have length three + 1
immediately before trimming (after the append phase of the last call) and
length three immediately after, the last state being the appended one with
its oldest element dropped after carrot and donkey are summed; and over any
sequence of calls the length of each history never exceeds three + 1. -/
theorem shrek_window_bound (one : ℤ) (three : ℕ) (four precision : ℤ) :
    (∀ (front : List (List ℚ)) (lastRsi : List ℚ),
       (∀ r ∈ front, r ≠ []) → lastRsi ≠ [] → front.length = three →
       (shrekRunCore one three four precision front emptyShrekDict none).1.apple.length
           = three ∧
       (shrekRunCore one three four precision front emptyShrekDict none).1.beetle.length
           = three ∧
       (shrekAppend (pymax lastRsi - pymin lastRsi) (lastRsi.headD 0 - pymin lastRsi)
          (shrekRunCore one three four precision front emptyShrekDict none).1).apple.length
           = three + 1 ∧
       (shrekAppend (pymax lastRsi - pymin lastRsi) (lastRsi.headD 0 - pymin lastRsi)
          (shrekRunCore one three four precision front emptyShrekDict none).1).beetle.length
           = three + 1 ∧
       (shrekRunCore one three four precision (front ++ [lastRsi]) emptyShrekDict none).1.apple
           = (shrekAppend (pymax lastRsi - pymin lastRsi) (lastRsi.headD 0 - pymin lastRsi)
               (shrekRunCore one three four precision front emptyShrekDict none).1).apple.drop 1 ∧
       (shrekRunCore one three four precision (front ++ [lastRsi]) emptyShrekDict none).1.beetle
           = (shrekAppend (pymax lastRsi - pymin lastRsi) (lastRsi.headD 0 - pymin lastRsi)
               (shrekRunCore one three four precision front emptyShrekDict none).1).beetle.drop 1 ∧
       (shrekRunCore one three four precision (front ++ [lastRsi]) emptyShrekDict none).1.apple.length
           = three ∧
       (shrekRunCore one three four precision (front ++ [lastRsi]) emptyShrekDict none).1.beetle.length
           = three) ∧
    (∀ (inputs : List (List ℚ)),
       (shrekRunCore one three four precision inputs emptyShrekDict none).1.apple.length
           ≤ three + 1 ∧
       (shrekRunCore one three four precision inputs emptyShrekDict none).1.beetle.length
           ≤ three + 1) := by
  refine ⟨?_, ?_⟩
  · intro front lastRsi hfr hlast hflen
    have hgrow := shrekRunCore_grow one three four precision front emptyShrekDict none hfr
      (by simp [emptyShrekDict, hflen])
    have h3a : (shrekRunCore one three four precision front emptyShrekDict none).1.apple.length
        = three := by
      have := hgrow.1
      simp only [emptyShrekDict, List.length_nil, Nat.zero_add, hflen] at this
      simpa [hflen] using this
    have h3b : (shrekRunCore one three four precision front emptyShrekDict none).1.beetle.length
        = three := by
      have := hgrow.2
      simp only [emptyShrekDict, List.length_nil, Nat.zero_add, hflen] at this
      simpa [hflen] using this
    have hfa := (shrekAppend_fields (pymax lastRsi - pymin lastRsi)
      (lastRsi.headD 0 - pymin lastRsi)
      (shrekRunCore one three four precision front emptyShrekDict none).1).1
    have hfb := (shrekAppend_fields (pymax lastRsi - pymin lastRsi)
      (lastRsi.headD 0 - pymin lastRsi)
      (shrekRunCore one three four precision front emptyShrekDict none).1).2
    have hmida : (shrekAppend (pymax lastRsi - pymin lastRsi)
        (lastRsi.headD 0 - pymin lastRsi)
        (shrekRunCore one three four precision front emptyShrekDict none).1).apple.length
        = three + 1 := by
      rw [hfa, List.length_append, h3a]
      simp
    have hmidb : (shrekAppend (pymax lastRsi - pymin lastRsi)
        (lastRsi.headD 0 - pymin lastRsi)
        (shrekRunCore one three four precision front emptyShrekDict none).1).beetle.length
        = three + 1 := by
      rw [hfb, List.length_append, h3b]
      simp
    have hFeq : (shrekRunCore one three four precision (front ++ [lastRsi])
        emptyShrekDict none).1
        = (shrekCore one three four precision lastRsi
            (shrekRunCore one three four precision front emptyShrekDict none).1
            (shrekRunCore one three four precision front emptyShrekDict none).2).1 := by
      rw [shrekRunCore_append]
      rfl
    have htrim := shrekCore_trim one three four precision lastRsi
      (shrekRunCore one three four precision front emptyShrekDict none).1
      (shrekRunCore one three four precision front emptyShrekDict none).2
      hlast (by omega)
    refine ⟨h3a, h3b, hmida, hmidb, ?_, ?_, ?_, ?_⟩
    · rw [hFeq, htrim.1]
    · rw [hFeq, htrim.2]
    · rw [hFeq, htrim.1, List.length_drop, hmida]
      omega
    · rw [hFeq, htrim.2, List.length_drop, hmidb]
      omega
  · intro inputs
    have hle := shrekRunCore_length_le one three four precision inputs emptyShrekDict none
      (by simp [emptyShrekDict]) (by simp [emptyShrekDict])
    exact ⟨by omega, by omega⟩

/-- Witness for shrek_window_bound with window parameter three = 1 and two
concrete evaluations. -/
theorem shrek_window_bound_witness :
    ((shrekRunCore 30 1 70 2 [[(50 : ℚ)]] emptyShrekDict none).1.apple.length = 1 ∧
     (shrekRunCore 30 1 70 2 [[(50 : ℚ)]] emptyShrekDict none).1.beetle.length = 1 ∧
     (shrekAppend (pymax [(60 : ℚ)] - pymin [(60 : ℚ)])
        (([(60 : ℚ)] : List ℚ).headD 0 - pymin [(60 : ℚ)])
        (shrekRunCore 30 1 70 2 [[(50 : ℚ)]] emptyShrekDict none).1).apple.length = 1 + 1 ∧
     (shrekAppend (pymax [(60 : ℚ)] - pymin [(60 : ℚ)])
        (([(60 : ℚ)] : List ℚ).headD 0 - pymin [(60 : ℚ)])
        (shrekRunCore 30 1 70 2 [[(50 : ℚ)]] emptyShrekDict none).1).beetle.length = 1 + 1 ∧
     (shrekRunCore 30 1 70 2 [[(50 : ℚ)], [(60 : ℚ)]] emptyShrekDict none).1.apple
         = (shrekAppend (pymax [(60 : ℚ)] - pymin [(60 : ℚ)])
             (([(60 : ℚ)] : List ℚ).headD 0 - pymin [(60 : ℚ)])
             (shrekRunCore 30 1 70 2 [[(50 : ℚ)]] emptyShrekDict none).1).apple.drop 1 ∧
     (shrekRunCore 30 1 70 2 [[(50 : ℚ)], [(60 : ℚ)]] emptyShrekDict none).1.beetle
         = (shrekAppend (pymax [(60 : ℚ)] - pymin [(60 : ℚ)])
             (([(60 : ℚ)] : List ℚ).headD 0 - pymin [(60 : ℚ)])
             (shrekRunCore 30 1 70 2 [[(50 : ℚ)]] emptyShrekDict none).1).beetle.drop 1 ∧
     (shrekRunCore 30 1 70 2 [[(50 : ℚ)], [(60 : ℚ)]] emptyShrekDict none).1.apple.length = 1 ∧
     (shrekRunCore 30 1 70 2 [[(50 : ℚ)], [(60 : ℚ)]] emptyShrekDict none).1.beetle.length = 1) :=
  (shrek_window_bound 30 1 70 2).1 [[(50 : ℚ)]] [(60 : ℚ)]
    (by decide) (by decide) (by decide)

/-- The updated mapping and the returned value of the Stoic body do not
depend on the incoming trend field. -/
lemma stoicCore_trend_arg (input3 : ℕ) (precision : ℤ) (rsi1 rsi2 : List ℚ)
    (d : StoicDict) (t1 t2 : Option Trend) :
    (stoicCore input3 precision rsi1 rsi2 d t1).1
        = (stoicCore input3 precision rsi1 rsi2 d t2).1 ∧
    (stoicCore input3 precision rsi1 rsi2 d t1).2.2
        = (stoicCore input3 precision rsi1 rsi2 d t2).2.2 := by
  rcases rsi1 with _ | ⟨a, as⟩
  · exact ⟨rfl, rfl⟩
  rcases rsi2 with _ | ⟨b, bs⟩
  · exact ⟨rfl, rfl⟩
  simp only [stoicCore]
  split_ifs <;> exact ⟨rfl, rfl⟩

/-- The updated mapping and the returned value of the Shrek body do not
depend on the incoming trend field. -/
lemma shrekCore_trend_arg (one : ℤ) (three : ℕ) (four precision : ℤ) (rsi : List ℚ)
    (d : ShrekDict) (t1 t2 : Option Trend) :
    (shrekCore one three four precision rsi d t1).1
        = (shrekCore one three four precision rsi d t2).1 ∧
    (shrekCore one three four precision rsi d t1).2.2
        = (shrekCore one three four precision rsi d t2).2.2 := by
  rcases rsi with _ | ⟨a, as⟩
  · exact ⟨rfl, rfl⟩
  simp only [shrekCore]
  split_ifs <;> exact ⟨rfl, rfl⟩

/-- A sequence of StoicStrategy.get_trend calls, collecting the outcomes. -/
def stoicRunCalls {Parent Bar : Type} (get_rsi : Parent → List Bar → ℕ → ℤ → ℚ)
    (live_rsi : Parent → ℕ → ℤ → Bool → ℚ)
    (calls : List (List Bar × ℤ × Bool)) (s : StoicStrategy Parent) :
    StoicStrategy Parent × List (Except PyErr (Option Trend)) :=
  match calls with
  | [] => (s, [])
  | c :: rest =>
    let r := StoicStrategy.get_trend get_rsi live_rsi s c.1 c.2.1 c.2.2
    let rr := stoicRunCalls get_rsi live_rsi rest r.1
    (rr.1, r.2 :: rr.2)

/-- A sequence of ShrekStrategy.get_trend calls, collecting the outcomes. -/
def shrekRunCalls {Parent Bar : Type} (get_rsi : Parent → List Bar → ℕ → ℤ → ℚ)
    (live_rsi : Parent → ℕ → ℤ → Bool → ℚ)
    (calls : List (List Bar × ℤ × Bool)) (s : ShrekStrategy Parent) :
    ShrekStrategy Parent × List (Except PyErr (Option Trend)) :=
  match calls with
  | [] => (s, [])
  | c :: rest =>
    let r := ShrekStrategy.get_trend get_rsi live_rsi s c.1 c.2.1 c.2.2
    let rr := shrekRunCalls get_rsi live_rsi rest r.1
    (rr.1, r.2 :: rr.2)

/-- A sequence of MovingAverageStrategy.get_trend calls, collecting the
outcomes. -/
def maRunCalls {Parent Bar : Type} (get_moving_average : Parent → List Bar → String → ℕ → String → ℚ)
    (calls : List (List Bar)) (s : MovingAverageStrategy Parent) :
    MovingAverageStrategy Parent × List (Option Trend) :=
  match calls with
  | [] => (s, [])
  | c :: rest =>
    let r := MovingAverageStrategy.get_trend get_moving_average s c
    let rr := maRunCalls get_moving_average rest r.1
    (rr.1, r.2 :: rr.2)

/-- Two StoicStrategy instances that agree on everything get_trend consults:
parent, precision, rolling state and window parameters (the name and the
retained trend field are allowed to differ). -/
def StoicR {Parent : Type} (x y : StoicStrategy Parent) : Prop :=
  x.parent = y.parent ∧ x.precision = y.precision ∧ x.strategyDict = y.strategyDict ∧
  x.stoicInput1 = y.stoicInput1 ∧ x.stoicInput2 = y.stoicInput2 ∧
  x.stoicInput3 = y.stoicInput3

/-- Agreement relation for ShrekStrategy instances. -/
def ShrekR {Parent : Type} (x y : ShrekStrategy Parent) : Prop :=
  x.parent = y.parent ∧ x.precision = y.precision ∧ x.strategyDict = y.strategyDict ∧
  x.one = y.one ∧ x.two = y.two ∧ x.three = y.three ∧ x.four = y.four

/-- Agreement relation for MovingAverageStrategy instances. -/
def MAR {Parent : Type} (x y : MovingAverageStrategy Parent) : Prop :=
  x.parent = y.parent ∧ x.tradingOptions = y.tradingOptions

/-- One Stoic call returns the same outcome on agreeing instances and
preserves the agreement. -/
lemma stoic_step_R {Parent Bar : Type} (get_rsi : Parent → List Bar → ℕ → ℤ → ℚ)
    (live_rsi : Parent → ℕ → ℤ → Bool → ℚ) (data : List Bar) (shift : ℤ) (update : Bool)
    (x y : StoicStrategy Parent) (h : StoicR x y) :
    (StoicStrategy.get_trend get_rsi live_rsi x data shift update).2
      = (StoicStrategy.get_trend get_rsi live_rsi y data shift update).2 ∧
    StoicR (StoicStrategy.get_trend get_rsi live_rsi x data shift update).1
      (StoicStrategy.get_trend get_rsi live_rsi y data shift update).1 := by
  obtain ⟨n1, p1, prec1, t1, d1, i11, i12, i13⟩ := x
  obtain ⟨n2, p2, prec2, t2, d2, i21, i22, i23⟩ := y
  obtain ⟨hp, hprec, hd, h1, h2, h3⟩ := h
  dsimp only at hp hprec hd h1 h2 h3
  subst hp hprec hd h1 h2 h3
  rcases data with _ | ⟨b, bs⟩
  · refine ⟨(stoicCore_trend_arg i13 prec1 _ _ d1 t1 t2).2, rfl, rfl,
      (stoicCore_trend_arg i13 prec1 _ _ d1 t1 t2).1, rfl, rfl, rfl⟩
  · simp only [StoicStrategy.get_trend, List.isEmpty_cons]
    by_cases hlen : (b :: bs).length ≤ max i11 (max i12 i13)
    · rw [if_pos trivial, if_pos trivial, if_pos hlen, if_pos hlen]
      exact ⟨rfl, rfl, rfl, rfl, rfl, rfl, rfl⟩
    · rw [if_pos trivial, if_pos trivial, if_neg hlen, if_neg hlen]
      refine ⟨(stoicCore_trend_arg i13 prec1 _ _ d1 t1 t2).2, rfl, rfl,
        (stoicCore_trend_arg i13 prec1 _ _ d1 t1 t2).1, rfl, rfl, rfl⟩

/-- One Shrek call returns the same outcome on agreeing instances and
preserves the agreement. -/
lemma shrek_step_R {Parent Bar : Type} (get_rsi : Parent → List Bar → ℕ → ℤ → ℚ)
    (live_rsi : Parent → ℕ → ℤ → Bool → ℚ) (data : List Bar) (shift : ℤ) (update : Bool)
    (x y : ShrekStrategy Parent) (h : ShrekR x y) :
    (ShrekStrategy.get_trend get_rsi live_rsi x data shift update).2
      = (ShrekStrategy.get_trend get_rsi live_rsi y data shift update).2 ∧
    ShrekR (ShrekStrategy.get_trend get_rsi live_rsi x data shift update).1
      (ShrekStrategy.get_trend get_rsi live_rsi y data shift update).1 := by
  obtain ⟨n1, p1, prec1, t1, d1, o1, w1, r1, f1⟩ := x
  obtain ⟨n2, p2, prec2, t2, d2, o2, w2, r2, f2⟩ := y
  obtain ⟨hp, hprec, hd, h1, h2, h3, h4⟩ := h
  dsimp only at hp hprec hd h1 h2 h3 h4
  subst hp hprec hd h1 h2 h3 h4
  rcases data with _ | ⟨b, bs⟩
  · refine ⟨(shrekCore_trend_arg o1 r1 f1 prec1 _ d1 t1 t2).2, rfl, rfl,
      (shrekCore_trend_arg o1 r1 f1 prec1 _ d1 t1 t2).1, rfl, rfl, rfl, rfl⟩
  · simp only [ShrekStrategy.get_trend, List.isEmpty_cons]
    by_cases hlen : (b :: bs).length ≤ w1 + 1
    · rw [if_pos trivial, if_pos trivial, if_pos hlen, if_pos hlen]
      exact ⟨rfl, rfl, rfl, rfl, rfl, rfl, rfl, rfl⟩
    · rw [if_pos trivial, if_pos trivial, if_neg hlen, if_neg hlen]
      refine ⟨(shrekCore_trend_arg o1 r1 f1 prec1 _ d1 t1 t2).2, rfl, rfl,
        (shrekCore_trend_arg o1 r1 f1 prec1 _ d1 t1 t2).1, rfl, rfl, rfl, rfl⟩

/-- One MovingAverage call returns the same outcome on agreeing instances and
preserves the agreement. -/
lemma ma_step_R {Parent Bar : Type}
    (get_moving_average : Parent → List Bar → String → ℕ → String → ℚ)
    (data : List Bar) (x y : MovingAverageStrategy Parent) (h : MAR x y) :
    (MovingAverageStrategy.get_trend get_moving_average x data).2
      = (MovingAverageStrategy.get_trend get_moving_average y data).2 ∧
    MAR (MovingAverageStrategy.get_trend get_moving_average x data).1
      (MovingAverageStrategy.get_trend get_moving_average y data).1 := by
  obtain ⟨hp, ho⟩ := h
  have hv : (MovingAverageStrategy.get_trend get_moving_average x data).2
      = (MovingAverageStrategy.get_trend get_moving_average y data).2 := by
    rw [ma_get_trend_snd, ma_get_trend_snd, hp, ho]
  exact ⟨hv, hp, ho⟩

/-- Sequences of Stoic calls return the same outcomes on agreeing instances. -/
lemma stoicRunCalls_R {Parent Bar : Type} (get_rsi : Parent → List Bar → ℕ → ℤ → ℚ)
    (live_rsi : Parent → ℕ → ℤ → Bool → ℚ) :
    ∀ (calls : List (List Bar × ℤ × Bool)) (x y : StoicStrategy Parent), StoicR x y →
      (stoicRunCalls get_rsi live_rsi calls x).2 = (stoicRunCalls get_rsi live_rsi calls y).2 := by
  intro calls
  induction calls with
  | nil => intro x y _; rfl
  | cons c rest ih =>
    intro x y h
    have hstep := stoic_step_R get_rsi live_rsi c.1 c.2.1 c.2.2 x y h
    simp only [stoicRunCalls]
    rw [hstep.1, ih _ _ hstep.2]

/-- Sequences of Shrek calls return the same outcomes on agreeing instances. -/
lemma shrekRunCalls_R {Parent Bar : Type} (get_rsi : Parent → List Bar → ℕ → ℤ → ℚ)
    (live_rsi : Parent → ℕ → ℤ → Bool → ℚ) :
    ∀ (calls : List (List Bar × ℤ × Bool)) (x y : ShrekStrategy Parent), ShrekR x y →
      (shrekRunCalls get_rsi live_rsi calls x).2 = (shrekRunCalls get_rsi live_rsi calls y).2 := by
  intro calls
  induction calls with
  | nil => intro x y _; rfl
  | cons c rest ih =>
    intro x y h
    have hstep := shrek_step_R get_rsi live_rsi c.1 c.2.1 c.2.2 x y h
    simp only [shrekRunCalls]
    rw [hstep.1, ih _ _ hstep.2]

/-- Sequences of MovingAverage calls return the same outcomes on agreeing
instances. -/
lemma maRunCalls_R {Parent Bar : Type}
    (get_moving_average : Parent → List Bar → String → ℕ → String → ℚ) :
    ∀ (calls : List (List Bar)) (x y : MovingAverageStrategy Parent), MAR x y →
      (maRunCalls get_moving_average calls x).2 = (maRunCalls get_moving_average calls y).2 := by
  intro calls
  induction calls with
  | nil => intro x y _; rfl
  | cons c rest ih =>
    intro x y h
    have hstep := ma_step_R get_moving_average c x y h
    simp only [maRunCalls]
    rw [hstep.1, ih _ _ hstep.2]

/-- Claim C7: for every strategy, reset_strategy_dictionary empties the
rolling-state mapping, and a subsequent sequence of get_trend calls returns
exactly the same results as the same sequence of calls on a freshly
constructed instance with the same parent and parameters; in particular None
is returned until the minimum window of samples is re-accumulated, exactly as
on the fresh instance. -/
theorem reset_behaves_as_fresh :
    (∀ (Parent Bar : Type) (get_rsi : Parent → List Bar → ℕ → ℤ → ℚ)
       (live_rsi : Parent → ℕ → ℤ → Bool → ℚ) (s : StoicStrategy Parent)
       (calls : List (List Bar × ℤ × Bool)),
       s.reset_strategy_dictionary.strategyDict = emptyStoicDict ∧
       (stoicRunCalls get_rsi live_rsi calls s.reset_strategy_dictionary).2
         = (stoicRunCalls get_rsi live_rsi calls
             (mkStoicStrategy s.parent s.stoicInput1 s.stoicInput2 s.stoicInput3
               s.precision)).2) ∧
    (∀ (Parent Bar : Type) (get_rsi : Parent → List Bar → ℕ → ℤ → ℚ)
       (live_rsi : Parent → ℕ → ℤ → Bool → ℚ) (s : ShrekStrategy Parent)
       (calls : List (List Bar × ℤ × Bool)),
       s.reset_strategy_dictionary.strategyDict = emptyShrekDict ∧
       (shrekRunCalls get_rsi live_rsi calls s.reset_strategy_dictionary).2
         = (shrekRunCalls get_rsi live_rsi calls
             (mkShrekStrategy s.parent s.one s.two s.three s.four s.precision)).2) ∧
    (∀ (Parent Bar : Type) (get_moving_average : Parent → List Bar → String → ℕ → String → ℚ)
       (s : MovingAverageStrategy Parent) (calls : List (List Bar)),
       s.reset_strategy_dictionary.strategyDict = [] ∧
       (maRunCalls get_moving_average calls s.reset_strategy_dictionary).2
         = (maRunCalls get_moving_average calls
             (mkMovingAverageStrategy s.parent s.tradingOptions s.precision)).2) := by
  refine ⟨?_, ?_, ?_⟩
  · intro Parent Bar get_rsi live_rsi s calls
    exact ⟨rfl, stoicRunCalls_R get_rsi live_rsi calls _ _ ⟨rfl, rfl, rfl, rfl, rfl, rfl⟩⟩
  · intro Parent Bar get_rsi live_rsi s calls
    exact ⟨rfl, shrekRunCalls_R get_rsi live_rsi calls _ _ ⟨rfl, rfl, rfl, rfl, rfl, rfl, rfl⟩⟩
  · intro Parent Bar get_moving_average s calls
    exact ⟨rfl, maRunCalls_R get_moving_average calls _ _ ⟨rfl, rfl⟩⟩
